import Mathlib

/-!
Verification of the CampusHelp pipeline (src/CampusHelp.py): a four-stage
batch pipeline (download HTML pages, convert them to text, rewrite manifest
URLs to a hosting root, validate the rewritten URLs) driven by a JSON
manifest whose "data" key holds a list of item records.

The Python code is shallowly embedded: JSON values become an inductive type,
dictionaries become association lists, the filesystem of an output directory
becomes an association list from filename to content, the network and the
HTML parser become oracle functions, and each stage becomes a fold over the
manifest's item list that threads the filesystem state and records a
per-item outcome.
-/

/-- A parsed JSON value, as produced by Python's json.load. Integers stand in
for JSON numbers (no claim exercises fractional values). -/
inductive JsonVal where
  | null : JsonVal
  | bool : Bool → JsonVal
  | num : Int → JsonVal
  | str : String → JsonVal
  | arr : List JsonVal → JsonVal
  | obj : List (String × JsonVal) → JsonVal

/-- Python str() rendering of a JSON value, as applied by the f-string in
get_output_filenames and by str() in sanitize_filename. Scalar cases match
CPython; composite values (lists / dicts) are rendered as fixed placeholder
tokens, since CPython would render their repr and no claim exercises a
composite identity field (the sanitizer's guarantees hold for any string). -/
def pyStr : JsonVal → String
  | .null => "None"
  | .bool true => "True"
  | .bool false => "False"
  | .num n => toString n
  | .str s => s
  | .arr _ => "[...]"
  | .obj _ => "\x7b...\x7d"

/-- Python dict lookup on an association list (parsed JSON dicts have unique
keys; lookup returns the first binding). -/
def dictGet : List (String × JsonVal) → String → Option JsonVal
  | [], _ => none
  | (k, v) :: fs, key => if k = key then some v else dictGet fs key

/-- Python dict assignment d[key] = v: an existing binding is updated in
place (keeping its position), a new key is appended at the end. -/
def dictSet : List (String × JsonVal) → String → JsonVal → List (String × JsonVal)
  | [], key, v => [(key, v)]
  | (k, w) :: fs, key, v =>
    if k = key then (key, v) :: fs else (k, w) :: dictSet fs key v

/-- Field access on an item record: item[key] when the item is a dict.
A non-dict item has no fields (in Python, .get on a non-dict would raise;
no claim exercises non-dict items). -/
def jsonField (item : JsonVal) (key : String) : Option JsonVal :=
  match item with
  | .obj fs => dictGet fs key
  | _ => none

/-- item.get(key, dflt) followed by the f-string's str() conversion. -/
def itemGetStr (item : JsonVal) (key dflt : String) : String :=
  match jsonField item key with
  | some v => pyStr v
  | none => dflt

/-- Python truthiness: `if not url` treats None, empty string, zero, False
and empty containers as absent. -/
def isFalsy : JsonVal → Bool
  | .null => true
  | .bool b => !b
  | .num n => n == 0
  | .str s => s == ""
  | .arr xs => xs.isEmpty
  | .obj fs => fs.isEmpty

/-- The detailUrl the loops act on: item.get("detailUrl") guarded by
`if not url`. Returns none exactly when the loop skips the item as having
no usable URL. -/
def urlOf (item : JsonVal) : Option String :=
  match jsonField item "detailUrl" with
  | none => none
  | some v => if isFalsy v then none else some (pyStr v)

/-- The ASCII whitespace characters of Python's str.strip() and of the
regex class \s (the embedding models the ASCII fragment of Unicode). -/
def isPySpace (c : Char) : Bool :=
  c = ' ' || c = '\t' || c = '\n' || c = '\r' || c = '\x0b' || c = '\x0c'

/-- The regex class \w over the modelled character set: alphanumeric or
underscore. -/
def isWordChar (c : Char) : Bool :=
  c.isAlphanum || c = '_'

/-- The character class kept by re.sub applied in sanitize_filename:
the pattern removes every character outside \w, \s, hyphen, dot. -/
def keptChar (c : Char) : Bool :=
  isWordChar c || isPySpace c || c = '-' || c = '.'

/-- Python str.strip(): drop leading and trailing whitespace. -/
def pyStrip (l : List Char) : List Char :=
  ((l.dropWhile isPySpace).reverse.dropWhile isPySpace).reverse

/-- Structural model of re.sub applied to underscores in sanitize_filename:
each maximal run of underscores is replaced by a single underscore. The
Boolean argument records whether the previous kept character was an
underscore. -/
def collapseAux : Bool → List Char → List Char
  | _, [] => []
  | prevU, c :: rest =>
    if c = '_' then
      if prevU then collapseAux true rest
      else '_' :: collapseAux true rest
    else c :: collapseAux false rest

def collapseUnderscores (l : List Char) : List Char :=
  collapseAux false l

/-- The space-to-underscore replacement s.replace(" ", "_") applied
characterwise. -/
def spaceToUnderscore (c : Char) : Char :=
  if c = ' ' then '_' else c

/-- The final truncation: s[:200] when len(s) > 200. -/
def truncate200 (s : List Char) : List Char :=
  if s.length > 200 then s.take 200 else s

/-- The character-list body of sanitize_filename: strip, replace spaces
with underscores, drop characters outside \w \s hyphen dot, collapse runs
of underscores, truncate to 200 characters. -/
def sanitizeList (l : List Char) : List Char :=
  truncate200 (collapseUnderscores (((pyStrip l).map spaceToUnderscore).filter keptChar))

/-- sanitize_filename (src/CampusHelp.py lines 8-20). The leading str() is
already applied by the caller's f-string in this embedding. -/
def sanitize_filename (name : String) : String :=
  String.mk (sanitizeList name.toList)

/-- get_output_filenames (src/CampusHelp.py lines 22-34): joins the four
identity fields (with sentinels for absent fields) with underscores and
sanitizes the result. -/
def get_output_filenames (item : JsonVal) : String :=
  let help_category_id := itemGetStr item "helpCategoryId" "unknown_category"
  let item_id := itemGetStr item "id" "unknown_id"
  let order := itemGetStr item "order" "unknown_order"
  let name := itemGetStr item "name" "unknown_name"
  sanitize_filename (help_category_id ++ "_" ++ item_id ++ "_" ++ order ++ "_" ++ name)

/-! ### The four pipeline stages

Each stage first applies the manifest shape check of the source
(`"data" not in data or not isinstance(data["data"], list)`), aborting
before any directory is created or file written, and then folds over the
item list. The filesystem of an output directory is an association list
from filename to content; writes happen only for absent filenames (the
skip-if-exists guard), so a write is an append. The network and the HTML
parser are oracle functions returning none on failure. -/

/-- The shape check shared by all four operations: the parsed document must
be a dict with key "data" bound to a list. -/
def manifestItems (doc : JsonVal) : Option (List JsonVal) :=
  match doc with
  | .obj fs =>
    match dictGet fs "data" with
    | some (.arr items) => some items
    | _ => none
  | _ => none

/-- The manifest-level error of the spec's taxonomy raised by the shape
check (the source prints the corresponding message and returns). -/
inductive PipelineError where
  | invalidSchema : PipelineError
  deriving DecidableEq

/-- A simulated output directory: filename to file content, in creation
order. -/
abbrev FileSys := List (String × String)

def lookupFile : FileSys → String → Option String
  | [], _ => none
  | (k, v) :: fs, key => if k = key then some v else lookupFile fs key

/-- Per-item outcome of the download loop (src/CampusHelp.py lines 58-85). -/
inductive FetchOutcome where
  | skippedNoUrl : FetchOutcome
  | skippedExists : FetchOutcome
  | downloaded : FetchOutcome
  | failed : FetchOutcome
  deriving DecidableEq

structure FetchState where
  files : FileSys
  calls : Nat
  outcomes : List FetchOutcome

/-- The html filename an item's artifacts are stored under. -/
def htmlName (item : JsonVal) : String :=
  get_output_filenames item ++ ".html"

/-- The txt filename an item's extracted text is stored under. -/
def txtName (item : JsonVal) : String :=
  get_output_filenames item ++ ".txt"

/-- One iteration of the download loop: skip on missing/falsy detailUrl,
skip if the html file already exists, otherwise issue one network call and
write the body on success; a transport failure is recorded for this item
only. -/
def fetchStep (net : String → Option String) (st : FetchState) (item : JsonVal) :
    FetchState :=
  match urlOf item with
  | none => { st with outcomes := st.outcomes ++ [.skippedNoUrl] }
  | some url =>
    if (lookupFile st.files (htmlName item)).isSome then
      { st with outcomes := st.outcomes ++ [.skippedExists] }
    else
      match net url with
      | some body =>
        { files := st.files ++ [(htmlName item, body)], calls := st.calls + 1,
          outcomes := st.outcomes ++ [.downloaded] }
      | none =>
        { st with calls := st.calls + 1, outcomes := st.outcomes ++ [.failed] }

/-- The download loop over the whole item list, from a given directory
state. -/
def fetchRun (net : String → Option String) (items : List JsonVal)
    (files0 : FileSys) : FetchState :=
  items.foldl (fetchStep net) ⟨files0, 0, []⟩

/-- download_html_pages (src/CampusHelp.py lines 36-86), from the parsed
JSON onward: the shape check aborts with InvalidSchema before the download
directory is created or any file written. -/
def download_html_pages (net : String → Option String) (doc : JsonVal)
    (files0 : FileSys) : Except PipelineError FetchState :=
  match manifestItems doc with
  | none => .error .invalidSchema
  | some items => .ok (fetchRun net items files0)

/-- Per-item outcome of the conversion loop (src/CampusHelp.py lines
112-158). -/
inductive ExtractOutcome where
  | missingSource : ExtractOutcome
  | skippedExists : ExtractOutcome
  | converted : ExtractOutcome
  | failed : ExtractOutcome
  deriving DecidableEq

structure ExtractState where
  txtFiles : FileSys
  parses : Nat
  outcomes : List ExtractOutcome

/-- One iteration of the conversion loop: skip when the html source is
absent, skip if the txt file already exists, otherwise parse (one parse
operation, covering the BeautifulSoup pass and the write; a failure
anywhere in the try block is recorded for this item only). -/
def extractStep (parse : String → Option String) (htmlFiles : FileSys)
    (st : ExtractState) (item : JsonVal) : ExtractState :=
  match lookupFile htmlFiles (htmlName item) with
  | none => { st with outcomes := st.outcomes ++ [.missingSource] }
  | some html =>
    if (lookupFile st.txtFiles (txtName item)).isSome then
      { st with outcomes := st.outcomes ++ [.skippedExists] }
    else
      match parse html with
      | some txt =>
        { txtFiles := st.txtFiles ++ [(txtName item, txt)], parses := st.parses + 1,
          outcomes := st.outcomes ++ [.converted] }
      | none =>
        { st with parses := st.parses + 1, outcomes := st.outcomes ++ [.failed] }

def extractRun (parse : String → Option String) (htmlFiles : FileSys)
    (items : List JsonVal) (txt0 : FileSys) : ExtractState :=
  items.foldl (extractStep parse htmlFiles) ⟨txt0, 0, []⟩

/-- convert_html_to_txt (src/CampusHelp.py lines 88-159), from the parsed
JSON onward. -/
def convert_html_to_txt (parse : String → Option String) (doc : JsonVal)
    (htmlFiles txt0 : FileSys) : Except PipelineError ExtractState :=
  match manifestItems doc with
  | none => .error .invalidSchema
  | some items => .ok (extractRun parse htmlFiles items txt0)

/-! ### The link rewriter (src/CampusHelp.py lines 161-201) -/

def GITHUB_BASE_URL : String := "https://toastybuns3939.github.io/CampusHelp/Pages/"

/-- The per-item rewrite of the loop at lines 188-192: set detailUrl to the
base url, the derived filename and the ".txt" suffix; every other binding
of the item dict is untouched. -/
def rewriteItem (item : JsonVal) : JsonVal :=
  match item with
  | .obj fs =>
    .obj (dictSet fs "detailUrl"
      (.str (GITHUB_BASE_URL ++ get_output_filenames item ++ ".txt")))
  | other => other

/-- generate_github_links_json as a value-level transformation of the
parsed document: the dict written to the output file is the top-level dict
with its "data" list rewritten item by item (all other top-level bindings
kept). The shape check aborts with InvalidSchema before the output
directory is created or the file written. -/
def generate_github_links_json (doc : JsonVal) : Except PipelineError JsonVal :=
  match doc with
  | .obj fs =>
    match dictGet fs "data" with
    | some (.arr items) =>
      .ok (.obj (dictSet fs "data" (.arr (items.map rewriteItem))))
    | _ => .error .invalidSchema
  | _ => .error .invalidSchema

/-- Reference-level model of the rewriter's mutation behaviour. Python's
dict.copy() at line 186 is a shallow copy: modified_data["data"] is the
same list object holding the same item dicts as the loaded manifest, so
the assignment item["detailUrl"] = ... at line 191 mutates the items the
original in-memory manifest still points to. Item dicts are heap cells
indexed by Nat; a manifest's data list is a list of references. -/
def heapGet (heap : List JsonVal) (r : Nat) : JsonVal :=
  heap.getD r .null

def heapSet (heap : List JsonVal) (r : Nat) (v : JsonVal) : List JsonVal :=
  heap.set r v

/-- The rewrite loop over the shared item cells. -/
def genLoop : List JsonVal → List Nat → List JsonVal
  | heap, [] => heap
  | heap, r :: rs => genLoop (heapSet heap r (rewriteItem (heapGet heap r))) rs

/-- generate_github_links_json over the heap: returns the heap after the
loop (through which both the original manifest and the shallow copy read
their items) and the item list serialized to the output file. -/
def generate_github_links_heap (heap : List JsonVal) (refs : List Nat) :
    List JsonVal × List JsonVal :=
  let h2 := genLoop heap refs
  (h2, refs.map (heapGet h2))

/-! ### The link validator (src/CampusHelp.py lines 203-256) -/

/-- What the reachability probe (requests.head) yields for a url: a
response with a status code, or one of the transport exceptions. -/
inductive ProbeResult where
  | response : Nat → ProbeResult
  | connErr : ProbeResult
  | timedOut : ProbeResult
  | otherErr : ProbeResult
  deriving DecidableEq

/-- The per-item classification printed by the validator loop. -/
inductive LinkStatus where
  | valid : LinkStatus
  | httpErr : LinkStatus
  | connErr : LinkStatus
  | timedOut : LinkStatus
  | otherErr : LinkStatus
  | skippedInvalid : LinkStatus
  deriving DecidableEq

/-- Classification of one item: a falsy/missing detailUrl is skipped;
otherwise raise_for_status turns a 4xx/5xx response into an HTTPError and
any other status counts as valid. -/
def classifyLink (probe : String → ProbeResult) (item : JsonVal) : LinkStatus :=
  match urlOf item with
  | none => .skippedInvalid
  | some link =>
    match probe link with
    | .response s => if 400 ≤ s ∧ s < 600 then .httpErr else .valid
    | .connErr => .connErr
    | .timedOut => .timedOut
    | .otherErr => .otherErr

structure ValidateSummary where
  total : Nat
  validCount : Nat
  failedCount : Nat
  deriving DecidableEq

/-- validate_github_links, from the parsed JSON onward: total_links is the
length of the data list, valid_links counts the items whose probe
succeeded, and the reported failure count is total minus valid. -/
def validate_github_links (probe : String → ProbeResult) (doc : JsonVal) :
    Except PipelineError (ValidateSummary × List LinkStatus) :=
  match manifestItems doc with
  | none => .error .invalidSchema
  | some items =>
    let statuses := items.map (classifyLink probe)
    let valid := (statuses.filter (fun s => s = LinkStatus.valid)).length
    .ok (⟨items.length, valid, items.length - valid⟩, statuses)

/-- The url string the loop passes to requests.get for an item that has
one. -/
def theUrl (it : JsonVal) : String := (urlOf it).getD ""

/-- The body persisted for an item whose download succeeds. -/
def fetchedBody (net : String → Option String) (it : JsonVal) : String :=
  (net (theUrl it)).getD ""

/-- The html content read for an item during extraction. -/
def htmlContent (htmlFiles : FileSys) (it : JsonVal) : String :=
  (lookupFile htmlFiles (htmlName it)).getD ""

/-- The text persisted for an item whose extraction succeeds. -/
def extractedText (parse : String → Option String) (htmlFiles : FileSys)
    (it : JsonVal) : String :=
  (parse (htmlContent htmlFiles it)).getD ""

/-! ### Concrete data used by witnesses and counterexamples -/

/-- The concrete item and manifest fields used by the C5 witness. -/
def w5Item : JsonVal :=
  .obj [("detailUrl", .str "http://old"), ("name", .str "page")]

def w5Fields : List (String × JsonVal) := [("data", .arr [w5Item])]

/-- Concrete data for the C3 witness and counterexample: a one-item
manifest and oracles for a fully successful first run. -/
def w3Item : JsonVal := .obj [("detailUrl", .str "http://x")]

def w3Doc : JsonVal := .obj [("data", .arr [w3Item])]

def w3Net : String → Option String := fun _ => some "<p>hi</p>"

def w3Parse : String → Option String := fun _ => some "hi"

def w3Html : FileSys :=
  [("unknown_category_unknown_id_unknown_order_unknown_name.html", "<p>hi</p>")]

/-- The concrete one-item manifest used by the C8 witness. -/
def w8Item : JsonVal := .obj [("detailUrl", .str "https://e/x.txt")]

def w8Doc : JsonVal := .obj [("data", .arr [w8Item])]

/-- The concrete two-item manifest used by the C10 witness: one item with
an empty detailUrl, one probed with 404. -/
def w10Items : List JsonVal :=
  [.obj [("detailUrl", .str "")], .obj [("detailUrl", .str "https://e/y.txt")]]

def w10Doc : JsonVal := .obj [("data", .arr w10Items)]

/-- Concrete data for the C4 witness: a three-item manifest whose middle
item has an unreachable URL (fetch) and an unparseable html artifact
(extract). -/
def c4i1 : JsonVal := .obj [("id", .str "1"), ("detailUrl", .str "http://a")]

def c4i2 : JsonVal := .obj [("id", .str "2"), ("detailUrl", .str "http://b")]

def c4i3 : JsonVal := .obj [("id", .str "3"), ("detailUrl", .str "http://c")]

def c4net : String → Option String :=
  fun u => if u = "http://b" then none else some "<p>x</p>"

def c4parse : String → Option String :=
  fun h => if h = "BAD" then none else some "txt"

def c4html : FileSys :=
  [(htmlName c4i1, "<p>x</p>"), (htmlName c4i2, "BAD"), (htmlName c4i3, "<p>y</p>")]

/-! ### Properties of the sanitizer (claim C1) -/

theorem collapseAux_true_head (l : List Char) :
    (collapseAux true l).head? ≠ some '_' := by
  induction l with
  | nil => simp [collapseAux]
  | cons c rest ih =>
    by_cases hc : c = '_'
    · simpa [collapseAux, hc] using ih
    · simp [collapseAux, hc]

theorem chain'_collapseAux (l : List Char) :
    ∀ b, (collapseAux b l).Chain' (fun a c => ¬(a = '_' ∧ c = '_')) := by
  induction l with
  | nil => intro b; simp [collapseAux]
  | cons c rest ih =>
    intro b
    by_cases hc : c = '_'
    · cases b with
      | true => simpa [collapseAux, hc] using ih true
      | false =>
        subst hc
        have hstep : collapseAux false ('_' :: rest) = '_' :: collapseAux true rest := by
          simp [collapseAux]
        rw [hstep]
        refine List.chain'_cons'.mpr ⟨?_, ih true⟩
        intro y hy
        rintro ⟨-, rfl⟩
        exact collapseAux_true_head rest (by simpa using hy)
    · have hstep : collapseAux b (c :: rest) = c :: collapseAux false rest := by
        simp [collapseAux, hc]
      rw [hstep]
      refine List.chain'_cons'.mpr ⟨?_, ih false⟩
      intro y _
      rintro ⟨rfl, -⟩
      exact hc rfl

theorem mem_collapseAux {x : Char} :
    ∀ (b : Bool) (l : List Char), x ∈ collapseAux b l → x ∈ l := by
  intro b l
  induction l generalizing b with
  | nil => simp [collapseAux]
  | cons c rest ih =>
    intro hx
    by_cases hc : c = '_'
    · subst hc
      cases b with
      | true =>
        have : x ∈ collapseAux true rest := by simp [collapseAux] at hx; exact hx
        exact List.mem_cons_of_mem _ (ih true this)
      | false =>
        have : x = '_' ∨ x ∈ collapseAux true rest := by
          simpa [collapseAux] using hx
        rcases this with rfl | h
        · exact List.mem_cons_self _ _
        · exact List.mem_cons_of_mem _ (ih true h)
    · have : x = c ∨ x ∈ collapseAux false rest := by
        simpa [collapseAux, hc] using hx
      rcases this with rfl | h
      · exact List.mem_cons_self _ _
      · exact List.mem_cons_of_mem _ (ih false h)

theorem collapseAux_false_ne_nil (c : Char) (rest : List Char) :
    collapseAux false (c :: rest) ≠ [] := by
  by_cases hc : c = '_' <;> simp [collapseAux, hc]

theorem mem_dropWhile_of_not (p : Char → Bool) {c : Char} (hp : p c = false) :
    ∀ l : List Char, c ∈ l → c ∈ l.dropWhile p := by
  intro l
  induction l with
  | nil => simp
  | cons a rest ih =>
    intro hm
    rw [List.dropWhile_cons]
    by_cases ha : p a = true
    · simp only [ha, if_true]
      rcases List.mem_cons.mp hm with rfl | h
      · rw [hp] at ha; cases ha
      · exact ih h
    · simp only [ha, if_false]
      exact hm

theorem mem_pyStrip {c : Char} (hc : isPySpace c = false) {l : List Char}
    (hm : c ∈ l) : c ∈ pyStrip l := by
  unfold pyStrip
  refine List.mem_reverse.mpr ?_
  refine mem_dropWhile_of_not _ hc _ ?_
  refine List.mem_reverse.mpr ?_
  exact mem_dropWhile_of_not _ hc _ hm

theorem truncate200_length (s : List Char) : (truncate200 s).length ≤ 200 := by
  unfold truncate200
  by_cases h : s.length > 200
  · simp only [h, if_true, List.length_take]
    exact Nat.min_le_left 200 _
  · simp only [h, if_false]
    omega

theorem truncate200_subset (s : List Char) : truncate200 s ⊆ s := by
  unfold truncate200
  by_cases h : s.length > 200
  · simp only [h, if_true]
    exact List.take_subset _ _
  · simp only [h, if_false]
    exact fun _ hx => hx

theorem truncate200_chain' {R : Char → Char → Prop} {s : List Char}
    (h : s.Chain' R) : (truncate200 s).Chain' R := by
  unfold truncate200
  by_cases hl : s.length > 200
  · simp only [hl, if_true]
    exact h.take 200
  · simp only [hl, if_false]
    exact h

theorem truncate200_ne_nil {s : List Char} (h : s ≠ []) : truncate200 s ≠ [] := by
  unfold truncate200
  by_cases hl : s.length > 200
  · simp only [hl, if_true]
    apply List.length_pos.mp
    rw [List.length_take]
    omega
  · simp only [hl, if_false]
    exact h

theorem collapseUnderscores_ne_nil {l : List Char} (h : l ≠ []) :
    collapseUnderscores l ≠ [] := by
  rcases l with - | ⟨c, rest⟩
  · exact absurd rfl h
  · exact collapseAux_false_ne_nil c rest

theorem sanitizeList_chars {c : Char} {l : List Char}
    (hc : c ∈ sanitizeList l) : keptChar c = true ∧ c ≠ ' ' := by
  unfold sanitizeList at hc
  have h4 := truncate200_subset _ hc
  have h3 := mem_collapseAux false _ h4
  have h2 := List.mem_filter.mp h3
  refine ⟨h2.2, ?_⟩
  rcases List.mem_map.mp h2.1 with ⟨a, -, ha⟩
  unfold spaceToUnderscore at ha
  by_cases hsp : a = ' '
  · subst hsp
    simp only [if_pos rfl] at ha
    subst ha
    decide
  · simp only [hsp, if_false] at ha
    subst ha
    exact hsp

theorem sanitizeList_length (l : List Char) : (sanitizeList l).length ≤ 200 :=
  truncate200_length _

theorem sanitizeList_chain' (l : List Char) :
    (sanitizeList l).Chain' (fun a c => ¬(a = '_' ∧ c = '_')) :=
  truncate200_chain' (chain'_collapseAux _ false)

theorem sanitizeList_ne_nil {l : List Char} (hm : '_' ∈ l) :
    sanitizeList l ≠ [] := by
  unfold sanitizeList
  apply truncate200_ne_nil
  apply collapseUnderscores_ne_nil
  intro hnil
  have h1 : '_' ∈ pyStrip l := mem_pyStrip (by decide) hm
  have h2 : '_' ∈ (pyStrip l).map spaceToUnderscore := by
    have := List.mem_map_of_mem spaceToUnderscore h1
    simpa [spaceToUnderscore] using this
  have h3 : '_' ∈ ((pyStrip l).map spaceToUnderscore).filter keptChar :=
    List.mem_filter.mpr ⟨h2, by decide⟩
  rw [hnil] at h3
  cases h3

theorem sanitize_filename_shape (name : String) (hm : '_' ∈ name.toList) :
    sanitize_filename name ≠ "" ∧
    (sanitize_filename name).length ≤ 200 ∧
    (sanitize_filename name).toList.Chain' (fun a b => ¬(a = '_' ∧ b = '_')) ∧
    ∀ c ∈ (sanitize_filename name).toList,
      isWordChar c = true ∨ c = '-' ∨ c = '.' ∨ (isPySpace c = true ∧ c ≠ ' ') := by
  have htl : (sanitize_filename name).toList = sanitizeList name.toList := rfl
  refine ⟨?_, ?_, ?_, ?_⟩
  · intro hempty
    apply sanitizeList_ne_nil hm
    have := congrArg String.toList hempty
    rw [htl] at this
    exact this
  · exact sanitizeList_length _
  · rw [htl]
    exact sanitizeList_chain' _
  · rw [htl]
    intro c hc
    obtain ⟨hkept, hnsp⟩ := sanitizeList_chars hc
    have : ((isWordChar c = true ∨ isPySpace c = true) ∨ c = '-') ∨ c = '.' := by
      simpa [keptChar, Bool.or_eq_true, decide_eq_true_eq] using hkept
    rcases this with ((h | h) | h) | h
    · exact Or.inl h
    · exact Or.inr (Or.inr (Or.inr ⟨h, hnsp⟩))
    · exact Or.inr (Or.inl h)
    · exact Or.inr (Or.inr (Or.inl h))

/-- C1 (amended): for every Item, the derived filename is a non-empty string
of length at most 200 with no two adjacent underscores, and every character
is a word character, a hyphen, a dot, or a non-space whitespace character
that survived sanitization. (Leading and trailing underscores, and interior
non-space whitespace, can occur; the original claim excluded them.) -/
theorem derived_filename_shape (item : JsonVal) :
    get_output_filenames item ≠ "" ∧
    (get_output_filenames item).length ≤ 200 ∧
    (get_output_filenames item).toList.Chain' (fun a b => ¬(a = '_' ∧ b = '_')) ∧
    ∀ c ∈ (get_output_filenames item).toList,
      isWordChar c = true ∨ c = '-' ∨ c = '.' ∨ (isPySpace c = true ∧ c ≠ ' ') := by
  unfold get_output_filenames
  apply sanitize_filename_shape
  show '_' ∈ String.data _
  simp [String.data_append]

/-- C1 (counterexample): an item whose helpCategoryId is the empty string,
whose id contains a tab and whose name is empty derives the filename
"_a\tb_x_", which has a leading underscore, a trailing underscore, and a
character (the tab) outside word/hyphen/dot/underscore — contradicting the
claim that sanitization never produces these. -/
theorem derived_filename_claim_fails :
    get_output_filenames (JsonVal.obj [("helpCategoryId", JsonVal.str ""),
        ("id", JsonVal.str "a\tb"), ("order", JsonVal.str "x"),
        ("name", JsonVal.str "")]) = "_a\tb_x_" ∧
    "_a\tb_x_".toList.head? = some '_' ∧
    '\t' ∈ "_a\tb_x_".toList ∧
    "_a\tb_x_".toList.getLast? = some '_' := by
  refine ⟨rfl, rfl, ?_, rfl⟩
  decide

/-- C2: filename derivation is a pure function of the four identity fields:
two items that agree on helpCategoryId, id, order and name derive the same
filename (the embedding is a pure Lean function, so invocation count, I/O
and randomness cannot influence it). -/
theorem derive_filename_deterministic (i1 i2 : JsonVal)
    (h1 : jsonField i1 "helpCategoryId" = jsonField i2 "helpCategoryId")
    (h2 : jsonField i1 "id" = jsonField i2 "id")
    (h3 : jsonField i1 "order" = jsonField i2 "order")
    (h4 : jsonField i1 "name" = jsonField i2 "name") :
    get_output_filenames i1 = get_output_filenames i2 := by
  unfold get_output_filenames itemGetStr
  rw [h1, h2, h3, h4]

/-- C2 witness: two concrete items agreeing on the four identity fields but
differing in detailUrl derive the same filename. -/
theorem derive_filename_deterministic_witness :
    jsonField (JsonVal.obj [("id", JsonVal.str "7"), ("name", JsonVal.str "A Page")])
        "helpCategoryId" =
      jsonField (JsonVal.obj [("detailUrl", JsonVal.str "http://a"),
        ("id", JsonVal.str "7"), ("name", JsonVal.str "A Page")]) "helpCategoryId" ∧
    get_output_filenames (JsonVal.obj [("id", JsonVal.str "7"), ("name", JsonVal.str "A Page")]) =
      get_output_filenames (JsonVal.obj [("detailUrl", JsonVal.str "http://a"),
        ("id", JsonVal.str "7"), ("name", JsonVal.str "A Page")]) :=
  ⟨rfl, derive_filename_deterministic _ _ rfl rfl rfl rfl⟩

/-- C9: an item in which each of the four identity fields is absent is given
the four sentinel literals, so its derived filename is the deterministic
string unknown_category_unknown_id_unknown_order_unknown_name. -/
theorem missing_fields_sentinels (item : JsonVal)
    (h1 : jsonField item "helpCategoryId" = none)
    (h2 : jsonField item "id" = none)
    (h3 : jsonField item "order" = none)
    (h4 : jsonField item "name" = none) :
    get_output_filenames item =
      "unknown_category_unknown_id_unknown_order_unknown_name" := by
  unfold get_output_filenames itemGetStr
  rw [h1, h2, h3, h4]
  rfl

/-- C9 witness: a concrete item carrying only a detailUrl derives the
all-sentinel filename. -/
theorem missing_fields_sentinels_witness :
    jsonField (JsonVal.obj [("detailUrl", JsonVal.str "http://a")]) "helpCategoryId" = none ∧
    get_output_filenames (JsonVal.obj [("detailUrl", JsonVal.str "http://a")]) =
      "unknown_category_unknown_id_unknown_order_unknown_name" :=
  ⟨rfl, missing_fields_sentinels _ rfl rfl rfl rfl⟩

/-! ### Rewriter and validator claims (C5, C6, C7, C8, C10) -/

theorem dictGet_dictSet_same (fs : List (String × JsonVal)) (k : String) (v : JsonVal) :
    dictGet (dictSet fs k v) k = some v := by
  induction fs with
  | nil => simp [dictSet, dictGet]
  | cons kv rest ih =>
    obtain ⟨k0, w⟩ := kv
    by_cases hk : k0 = k
    · simp [dictSet, hk, dictGet]
    · simp [dictSet, hk, dictGet, ih]

theorem dictGet_dictSet_other (fs : List (String × JsonVal)) (k k' : String)
    (v : JsonVal) (hne : k' ≠ k) : dictGet (dictSet fs k v) k' = dictGet fs k' := by
  have hne' : ¬(k = k') := fun h => hne h.symm
  induction fs with
  | nil => simp [dictSet, dictGet, hne']
  | cons kv rest ih =>
    obtain ⟨k0, w⟩ := kv
    by_cases hk : k0 = k
    · subst hk
      simp [dictSet, dictGet, hne']
    · simp only [dictSet, hk, if_false, dictGet]
      by_cases h0 : k0 = k'
      · simp [h0]
      · simp [h0, ih]

/-- C5: the rewriter maps every item of the data list to the same item with
detailUrl set to the base url followed by the derived filename and ".txt";
every other field of the item is unchanged. The transformation reads no
filesystem state, so it is not conditioned on artifact existence. -/
theorem rewriter_sets_detail_url (fs : List (String × JsonVal))
    (items : List JsonVal) (hdata : dictGet fs "data" = some (.arr items))
    (j : Nat) (hj : j < items.length) (gs : List (String × JsonVal))
    (hitem : items.getD j .null = .obj gs) :
    generate_github_links_json (.obj fs) =
      .ok (.obj (dictSet fs "data" (.arr (items.map rewriteItem)))) ∧
    jsonField ((items.map rewriteItem).getD j .null) "detailUrl" =
      some (.str (GITHUB_BASE_URL ++ get_output_filenames (items.getD j .null) ++ ".txt")) ∧
    ∀ key, key ≠ "detailUrl" →
      jsonField ((items.map rewriteItem).getD j .null) key =
        jsonField (items.getD j .null) key := by
  have hmap : (items.map rewriteItem).getD j .null = rewriteItem (items.getD j .null) := by
    have h1 : (items.map rewriteItem).getD j .null = ((items.map rewriteItem)[j]?).getD .null := by
      simp [List.getD]
    have h2 : items.getD j .null = (items[j]?).getD .null := by
      simp [List.getD]
    rcases hx : items[j]? with - | it
    · rw [List.getElem?_eq_none_iff] at hx
      omega
    · rw [h1, h2, List.getElem?_map, hx]
      rfl
  refine ⟨by simp [generate_github_links_json, hdata], ?_, ?_⟩
  · rw [hmap, hitem]
    show jsonField (rewriteItem (.obj gs)) "detailUrl" = _
    simp only [rewriteItem, jsonField]
    rw [dictGet_dictSet_same]
  · intro key hkey
    rw [hmap, hitem]
    show jsonField (rewriteItem (.obj gs)) key = _
    simp only [rewriteItem, jsonField]
    exact dictGet_dictSet_other _ _ _ _ hkey

/-- C5 witness: a concrete two-field item has its detailUrl rewritten. -/
theorem rewriter_sets_detail_url_witness :
    dictGet w5Fields "data" = some (.arr [w5Item]) ∧
    (0 < 1 ∧ [w5Item].getD 0 .null =
      .obj [("detailUrl", JsonVal.str "http://old"), ("name", JsonVal.str "page")]) ∧
    jsonField (([w5Item].map rewriteItem).getD 0 .null) "detailUrl" =
      some (.str (GITHUB_BASE_URL ++ get_output_filenames ([w5Item].getD 0 .null) ++ ".txt")) :=
  ⟨rfl, ⟨Nat.zero_lt_one, rfl⟩,
    (rewriter_sets_detail_url w5Fields [w5Item] rfl 0 Nat.zero_lt_one
      [("detailUrl", JsonVal.str "http://old"), ("name", JsonVal.str "page")] rfl).2.1⟩

/-- C6 (the code contradicts the claim): dict.copy() at line 186 is a
shallow copy, so the loop's item["detailUrl"] assignment mutates the item
dicts the original in-memory manifest still references. For a one-item
manifest, reading the original item back through the heap after the call
yields the rewritten GitHub url, not the original url. -/
theorem rewriter_mutates_source :
    jsonField (heapGet (generate_github_links_heap
        [JsonVal.obj [("detailUrl", JsonVal.str "http://orig"),
          ("name", JsonVal.str "page")]] [0]).1 0) "detailUrl" =
      some (JsonVal.str ("https://toastybuns3939.github.io/CampusHelp/Pages/" ++
        "unknown_category_unknown_id_unknown_order_page.txt")) ∧
    jsonField (JsonVal.obj [("detailUrl", JsonVal.str "http://orig"),
      ("name", JsonVal.str "page")]) "detailUrl" = some (JsonVal.str "http://orig") :=
  ⟨rfl, rfl⟩

theorem generate_invalid_schema (doc : JsonVal) (hbad : manifestItems doc = none) :
    generate_github_links_json doc = .error .invalidSchema := by
  cases doc with
  | obj fs =>
    rcases hd : dictGet fs "data" with - | v
    · simp [generate_github_links_json, hd]
    · cases v <;> simp_all [generate_github_links_json, manifestItems, hd]
  | null => rfl
  | bool b => rfl
  | num n => rfl
  | str s => rfl
  | arr xs => rfl

/-- C7: when the parsed manifest lacks the "data" key or its value is not a
list, each of the four operations returns InvalidSchema at the shape check;
in the model the error return carries no filesystem state, matching the
source, where the check precedes directory creation and every write. -/
theorem invalid_schema_aborts (net parse : String → Option String)
    (probe : String → ProbeResult) (files0 htmlFiles txt0 : FileSys)
    (doc : JsonVal) (hbad : manifestItems doc = none) :
    download_html_pages net doc files0 = .error .invalidSchema ∧
    convert_html_to_txt parse doc htmlFiles txt0 = .error .invalidSchema ∧
    generate_github_links_json doc = .error .invalidSchema ∧
    validate_github_links probe doc = .error .invalidSchema := by
  refine ⟨?_, ?_, generate_invalid_schema doc hbad, ?_⟩
  · simp [download_html_pages, hbad]
  · simp [convert_html_to_txt, hbad]
  · simp [validate_github_links, hbad]

/-- C7 witness: the manifest given by the empty JSON object aborts all four
operations with InvalidSchema. -/
theorem invalid_schema_aborts_witness :
    manifestItems (JsonVal.obj []) = none ∧
    download_html_pages (fun _ => none) (JsonVal.obj []) [] = .error .invalidSchema ∧
    convert_html_to_txt (fun _ => none) (JsonVal.obj []) [] [] = .error .invalidSchema ∧
    generate_github_links_json (JsonVal.obj []) = .error .invalidSchema ∧
    validate_github_links (fun _ => ProbeResult.connErr) (JsonVal.obj []) =
      .error .invalidSchema := by
  have h := invalid_schema_aborts (fun _ => none) (fun _ => none)
    (fun _ => ProbeResult.connErr) [] [] [] (JsonVal.obj []) rfl
  exact ⟨rfl, h.1, h.2.1, h.2.2.1, h.2.2.2⟩

theorem classifyLink_eq_skipped_iff (probe : String → ProbeResult) (it : JsonVal) :
    classifyLink probe it = .skippedInvalid ↔ urlOf it = none := by
  unfold classifyLink
  rcases h : urlOf it with - | u
  · simp
  · simp only [reduceCtorEq, iff_false]
    rcases probe u with s | - | - | -
    · by_cases h4 : 400 ≤ s ∧ s < 600 <;> simp [h4]
    · simp
    · simp
    · simp

/-- C8: the single-item HTTP 404 scenario: a manifest whose one item has a
probeable detailUrl answered with status 404 is classified httpErr (the
raise_for_status range is 4xx/5xx) and summarized as total=1, valid=0,
failed=1; and any item with a missing or empty detailUrl is classified
skipped-invalid, the only classification that bypasses the probe. -/
theorem validator_404_scenario (probe : String → ProbeResult)
    (doc item : JsonVal) (u : String) (hdoc : manifestItems doc = some [item])
    (hu : urlOf item = some u) (hp : probe u = .response 404) :
    validate_github_links probe doc =
      .ok (⟨1, 0, 1⟩, [LinkStatus.httpErr]) ∧
    ∀ it : JsonVal, urlOf it = none → classifyLink probe it = .skippedInvalid := by
  constructor
  · have hclass : classifyLink probe item = .httpErr := by
      simp only [classifyLink, hu, hp]
      norm_num
    simp [validate_github_links, hdoc, hclass]
  · intro it hit
    exact (classifyLink_eq_skipped_iff probe it).mpr hit

/-- C8 witness: the one-item rewritten manifest probed with a constant 404
responder. -/
theorem validator_404_scenario_witness :
    manifestItems w8Doc = some [w8Item] ∧
    urlOf w8Item = some "https://e/x.txt" ∧
    validate_github_links (fun _ => ProbeResult.response 404) w8Doc =
      .ok (⟨1, 0, 1⟩, [LinkStatus.httpErr]) :=
  ⟨rfl, rfl,
    (validator_404_scenario (fun _ => ProbeResult.response 404) w8Doc w8Item
      "https://e/x.txt" rfl rfl rfl).1⟩

theorem length_filter_not_valid (l : List LinkStatus) :
    (l.filter (fun s => ¬s = LinkStatus.valid)).length =
      l.length - (l.filter (fun s => s = LinkStatus.valid)).length := by
  induction l with
  | nil => rfl
  | cons a rest ih =>
    have hle := List.length_filter_le (fun s => decide (s = LinkStatus.valid)) rest
    simp only [decide_not] at ih ⊢
    by_cases ha : a = LinkStatus.valid
    · simp [List.filter_cons, ha, ih]
    · simp [List.filter_cons, ha, ih]
      omega

theorem length_filter_skipped_le (l : List LinkStatus) :
    (l.filter (fun s => s = LinkStatus.skippedInvalid)).length ≤
      (l.filter (fun s => ¬s = LinkStatus.valid)).length := by
  induction l with
  | nil => simp
  | cons a rest ih =>
    simp only [decide_not] at ih ⊢
    by_cases h1 : a = LinkStatus.skippedInvalid
    · subst h1
      simp [List.filter_cons]
      omega
    · by_cases h2 : a = LinkStatus.valid <;> simp [List.filter_cons, h1, h2] <;> omega

/-- C10: the validator's total is the full length of the data list
(including items with empty or missing detailUrl), the reported failure
count is total minus valid, which equals the number of statuses other than
valid; every skipped-invalid item (never probed) is therefore counted among
the failed links, and the skipped-invalid statuses are exactly the items
whose detailUrl is missing or empty. -/
theorem validator_summary_counts (probe : String → ProbeResult) (doc : JsonVal)
    (items : List JsonVal) (hdoc : manifestItems doc = some items) :
    validate_github_links probe doc =
      .ok (⟨items.length,
        ((items.map (classifyLink probe)).filter (fun s => s = LinkStatus.valid)).length,
        items.length -
          ((items.map (classifyLink probe)).filter (fun s => s = LinkStatus.valid)).length⟩,
        items.map (classifyLink probe)) ∧
    items.length -
        ((items.map (classifyLink probe)).filter (fun s => s = LinkStatus.valid)).length =
      ((items.map (classifyLink probe)).filter (fun s => ¬s = LinkStatus.valid)).length ∧
    ((items.map (classifyLink probe)).filter
        (fun s => s = LinkStatus.skippedInvalid)).length ≤
      items.length -
        ((items.map (classifyLink probe)).filter (fun s => s = LinkStatus.valid)).length ∧
    ((items.map (classifyLink probe)).filter
        (fun s => s = LinkStatus.skippedInvalid)).length =
      (items.filter (fun it => (urlOf it).isNone)).length := by
  have hlen : (items.map (classifyLink probe)).length = items.length :=
    List.length_map _ _
  have hnot := length_filter_not_valid (items.map (classifyLink probe))
  refine ⟨by simp [validate_github_links, hdoc], by omega, ?_, ?_⟩
  · have := length_filter_skipped_le (items.map (classifyLink probe))
    omega
  · have hcount1 : ((items.map (classifyLink probe)).filter
        (fun s => s = LinkStatus.skippedInvalid)).length =
        items.countP (fun it => decide (classifyLink probe it = LinkStatus.skippedInvalid)) := by
      rw [← List.countP_eq_length_filter, List.countP_map]
      rfl
    have hcount2 : (items.filter (fun it => (urlOf it).isNone)).length =
        items.countP (fun it => (urlOf it).isNone) :=
      (List.countP_eq_length_filter _ _).symm
    rw [hcount1, hcount2]
    apply List.countP_congr
    intro it _
    simp only [decide_eq_true_eq, Option.isNone_iff_eq_none]
    exact classifyLink_eq_skipped_iff probe it

/-- C10 witness. -/
theorem validator_summary_counts_witness :
    manifestItems w10Doc = some w10Items ∧
    validate_github_links (fun _ => ProbeResult.response 404) w10Doc =
      .ok (⟨w10Items.length,
        ((w10Items.map (classifyLink (fun _ => ProbeResult.response 404))).filter
          (fun s => s = LinkStatus.valid)).length,
        w10Items.length -
          ((w10Items.map (classifyLink (fun _ => ProbeResult.response 404))).filter
            (fun s => s = LinkStatus.valid)).length⟩,
        w10Items.map (classifyLink (fun _ => ProbeResult.response 404))) ∧
    ((w10Items.map (classifyLink (fun _ => ProbeResult.response 404))).filter
        (fun s => s = LinkStatus.skippedInvalid)).length =
      (w10Items.filter (fun it => (urlOf it).isNone)).length :=
  ⟨rfl, (validator_summary_counts (fun _ => ProbeResult.response 404) w10Doc
      w10Items rfl).1,
    (validator_summary_counts (fun _ => ProbeResult.response 404) w10Doc
      w10Items rfl).2.2.2⟩

/-! ### Idempotence of fetch and extract (claim C3) -/

theorem lookupFile_append_some {l : FileSys} {f b : String}
    (h : lookupFile l f = some b) (kv : String × String) :
    lookupFile (l ++ [kv]) f = some b := by
  induction l with
  | nil => cases h
  | cons a rest ih =>
    obtain ⟨k, v⟩ := a
    by_cases hk : k = f
    · simpa [lookupFile, hk] using h
    · rw [List.cons_append]
      simp only [lookupFile, hk, if_false] at h ⊢
      exact ih h

theorem lookupFile_append_self {l : FileSys} {f : String}
    (hnone : lookupFile l f = none) (v : String) :
    lookupFile (l ++ [(f, v)]) f = some v := by
  induction l with
  | nil => simp [lookupFile]
  | cons a rest ih =>
    obtain ⟨k, w⟩ := a
    by_cases hk : k = f
    · simp [lookupFile, hk] at hnone
    · rw [List.cons_append]
      simp only [lookupFile, hk, if_false] at hnone ⊢
      exact ih hnone

theorem fetch_outcomes_mono (net : String → Option String) (items : List JsonVal) :
    ∀ (st : FetchState) (o : FetchOutcome), o ∈ st.outcomes →
      o ∈ (items.foldl (fetchStep net) st).outcomes := by
  induction items with
  | nil => intro st o ho; exact ho
  | cons item rest ih =>
    intro st o ho
    rw [List.foldl_cons]
    apply ih
    rcases hu : urlOf item with - | u
    · simp [fetchStep, hu, ho]
    · by_cases hex : (lookupFile st.files (htmlName item)).isSome
      · simp [fetchStep, hu, hex, ho]
      · rcases hnet : net u with - | body
        · simp [fetchStep, hu, hex, hnet, ho]
        · simp [fetchStep, hu, hex, hnet, ho]

theorem fetch_files_mono (net : String → Option String) (items : List JsonVal) :
    ∀ (st : FetchState) (f b : String), lookupFile st.files f = some b →
      lookupFile (items.foldl (fetchStep net) st).files f = some b := by
  induction items with
  | nil => intro st f b hb; exact hb
  | cons item rest ih =>
    intro st f b hb
    rw [List.foldl_cons]
    apply ih
    rcases hu : urlOf item with - | u
    · simpa [fetchStep, hu] using hb
    · by_cases hex : (lookupFile st.files (htmlName item)).isSome
      · simpa [fetchStep, hu, hex] using hb
      · rcases hnet : net u with - | body
        · simpa [fetchStep, hu, hex, hnet] using hb
        · simp only [fetchStep, hu, hex, hnet]
          simp only [Bool.false_eq_true, if_false]
          exact lookupFile_append_some hb _

theorem fetch_no_fail_covered (net : String → Option String) (items : List JsonVal) :
    ∀ st : FetchState, FetchOutcome.failed ∉ (items.foldl (fetchStep net) st).outcomes →
      ∀ it ∈ items, (urlOf it).isSome = true →
        (lookupFile (items.foldl (fetchStep net) st).files (htmlName it)).isSome = true := by
  induction items with
  | nil => intro st _ it hit; cases hit
  | cons item rest ih =>
    intro st hnf it hit hurl
    rw [List.foldl_cons] at hnf ⊢
    rcases List.mem_cons.mp hit with rfl | hit'
    · rcases Option.isSome_iff_exists.mp hurl with ⟨u, hu⟩
      by_cases hex : (lookupFile st.files (htmlName it)).isSome
      · rcases Option.isSome_iff_exists.mp hex with ⟨b, hb⟩
        have hstep : (fetchStep net st it).files = st.files := by
          simp [fetchStep, hu, hex]
        have := fetch_files_mono net rest (fetchStep net st it) (htmlName it) b
          (by rw [hstep]; exact hb)
        simp [this]
      · rcases hnet : net u with - | body
        · exfalso
          apply hnf
          apply fetch_outcomes_mono
          simp [fetchStep, hu, hex, hnet]
        · have hnone : lookupFile st.files (htmlName it) = none :=
            Option.not_isSome_iff_eq_none.mp (by simpa using hex)
          have hstep : (fetchStep net st it).files =
              st.files ++ [(htmlName it, body)] := by
            simp [fetchStep, hu, hex, hnet]
          have := fetch_files_mono net rest (fetchStep net st it) (htmlName it) body
            (by rw [hstep]; exact lookupFile_append_self hnone body)
          simp [this]
    · exact ih (fetchStep net st item) hnf it hit' hurl

theorem fetch_all_present_skips (net : String → Option String) (items : List JsonVal) :
    ∀ st : FetchState,
      (∀ it ∈ items, (urlOf it).isSome = true →
        (lookupFile st.files (htmlName it)).isSome = true) →
      (items.foldl (fetchStep net) st).files = st.files ∧
      (items.foldl (fetchStep net) st).calls = st.calls := by
  induction items with
  | nil => intro st _; exact ⟨rfl, rfl⟩
  | cons item rest ih =>
    intro st hall
    rw [List.foldl_cons]
    have hstep : (fetchStep net st item).files = st.files ∧
        (fetchStep net st item).calls = st.calls := by
      rcases hu : urlOf item with - | u
      · simp [fetchStep, hu]
      · have hex : (lookupFile st.files (htmlName item)).isSome = true :=
          hall item (List.mem_cons_self _ _) (by simp [hu])
        simp [fetchStep, hu, hex]
    have hrest := ih (fetchStep net st item) (by
      intro it hit hurl
      rw [hstep.1]
      exact hall it (List.mem_cons_of_mem _ hit) hurl)
    exact ⟨hrest.1.trans hstep.1, hrest.2.trans hstep.2⟩

theorem extract_outcomes_mono (parse : String → Option String) (htmlFiles : FileSys)
    (items : List JsonVal) :
    ∀ (st : ExtractState) (o : ExtractOutcome), o ∈ st.outcomes →
      o ∈ (items.foldl (extractStep parse htmlFiles) st).outcomes := by
  induction items with
  | nil => intro st o ho; exact ho
  | cons item rest ih =>
    intro st o ho
    rw [List.foldl_cons]
    apply ih
    rcases hh : lookupFile htmlFiles (htmlName item) with - | html
    · simp [extractStep, hh, ho]
    · by_cases hex : (lookupFile st.txtFiles (txtName item)).isSome
      · simp [extractStep, hh, hex, ho]
      · rcases hp : parse html with - | txt
        · simp [extractStep, hh, hex, hp, ho]
        · simp [extractStep, hh, hex, hp, ho]

theorem extract_txt_mono (parse : String → Option String) (htmlFiles : FileSys)
    (items : List JsonVal) :
    ∀ (st : ExtractState) (f b : String), lookupFile st.txtFiles f = some b →
      lookupFile (items.foldl (extractStep parse htmlFiles) st).txtFiles f = some b := by
  induction items with
  | nil => intro st f b hb; exact hb
  | cons item rest ih =>
    intro st f b hb
    rw [List.foldl_cons]
    apply ih
    rcases hh : lookupFile htmlFiles (htmlName item) with - | html
    · simpa [extractStep, hh] using hb
    · by_cases hex : (lookupFile st.txtFiles (txtName item)).isSome
      · simpa [extractStep, hh, hex] using hb
      · rcases hp : parse html with - | txt
        · simpa [extractStep, hh, hex, hp] using hb
        · simp only [extractStep, hh, hex, hp]
          simp only [Bool.false_eq_true, if_false]
          exact lookupFile_append_some hb _

theorem extract_no_fail_covered (parse : String → Option String) (htmlFiles : FileSys)
    (items : List JsonVal) :
    ∀ st : ExtractState,
      ExtractOutcome.failed ∉ (items.foldl (extractStep parse htmlFiles) st).outcomes →
      ∀ it ∈ items, (lookupFile htmlFiles (htmlName it)).isSome = true →
        (lookupFile (items.foldl (extractStep parse htmlFiles) st).txtFiles
          (txtName it)).isSome = true := by
  induction items with
  | nil => intro st _ it hit; cases hit
  | cons item rest ih =>
    intro st hnf it hit hhtml
    rw [List.foldl_cons] at hnf ⊢
    rcases List.mem_cons.mp hit with rfl | hit'
    · rcases Option.isSome_iff_exists.mp hhtml with ⟨html, hh⟩
      by_cases hex : (lookupFile st.txtFiles (txtName it)).isSome
      · rcases Option.isSome_iff_exists.mp hex with ⟨b, hb⟩
        have hstep : (extractStep parse htmlFiles st it).txtFiles = st.txtFiles := by
          simp [extractStep, hh, hex]
        have := extract_txt_mono parse htmlFiles rest (extractStep parse htmlFiles st it)
          (txtName it) b (by rw [hstep]; exact hb)
        simp [this]
      · rcases hp : parse html with - | txt
        · exfalso
          apply hnf
          apply extract_outcomes_mono
          simp [extractStep, hh, hex, hp]
        · have hnone : lookupFile st.txtFiles (txtName it) = none :=
            Option.not_isSome_iff_eq_none.mp (by simpa using hex)
          have hstep : (extractStep parse htmlFiles st it).txtFiles =
              st.txtFiles ++ [(txtName it, txt)] := by
            simp [extractStep, hh, hex, hp]
          have := extract_txt_mono parse htmlFiles rest (extractStep parse htmlFiles st it)
            (txtName it) txt (by rw [hstep]; exact lookupFile_append_self hnone txt)
          simp [this]
    · exact ih (extractStep parse htmlFiles st item) hnf it hit' hhtml

theorem extract_all_present_skips (parse : String → Option String) (htmlFiles : FileSys)
    (items : List JsonVal) :
    ∀ st : ExtractState,
      (∀ it ∈ items, (lookupFile htmlFiles (htmlName it)).isSome = true →
        (lookupFile st.txtFiles (txtName it)).isSome = true) →
      (items.foldl (extractStep parse htmlFiles) st).txtFiles = st.txtFiles ∧
      (items.foldl (extractStep parse htmlFiles) st).parses = st.parses := by
  induction items with
  | nil => intro st _; exact ⟨rfl, rfl⟩
  | cons item rest ih =>
    intro st hall
    rw [List.foldl_cons]
    have hstep : (extractStep parse htmlFiles st item).txtFiles = st.txtFiles ∧
        (extractStep parse htmlFiles st item).parses = st.parses := by
      rcases hh : lookupFile htmlFiles (htmlName item) with - | html
      · simp [extractStep, hh]
      · have hex : (lookupFile st.txtFiles (txtName item)).isSome = true :=
          hall item (List.mem_cons_self _ _) (by simp [hh])
        simp [extractStep, hh, hex]
    have hrest := ih (extractStep parse htmlFiles st item) (by
      intro it hit hhtml
      rw [hstep.1]
      exact hall it (List.mem_cons_of_mem _ hit) hhtml)
    exact ⟨hrest.1.trans hstep.1, hrest.2.trans hstep.2⟩

/-- C3 (amended): skip-if-exists makes a second fetch (or extract) run a
no-op whenever the first run recorded no per-item failure: the second run
performs zero network calls (zero parse operations) and leaves the artifact
set exactly as the first run left it. (Without the no-failure hypothesis
the second run retries the failed items and so does issue network calls;
see the counterexample.) -/
theorem second_run_is_noop (net parse : String → Option String)
    (doc : JsonVal) (items : List JsonVal) (hdoc : manifestItems doc = some items)
    (files0 htmlFiles txt0 : FileSys)
    (hnf : FetchOutcome.failed ∉ (fetchRun net items files0).outcomes)
    (hne : ExtractOutcome.failed ∉ (extractRun parse htmlFiles items txt0).outcomes) :
    download_html_pages net doc files0 = .ok (fetchRun net items files0) ∧
    convert_html_to_txt parse doc htmlFiles txt0 =
      .ok (extractRun parse htmlFiles items txt0) ∧
    (fetchRun net items (fetchRun net items files0).files).calls = 0 ∧
    (fetchRun net items (fetchRun net items files0).files).files =
      (fetchRun net items files0).files ∧
    (extractRun parse htmlFiles items
        (extractRun parse htmlFiles items txt0).txtFiles).parses = 0 ∧
    (extractRun parse htmlFiles items
        (extractRun parse htmlFiles items txt0).txtFiles).txtFiles =
      (extractRun parse htmlFiles items txt0).txtFiles := by
  have hcovF := fetch_no_fail_covered net items ⟨files0, 0, []⟩ hnf
  have hskipF := fetch_all_present_skips net items
    ⟨(fetchRun net items files0).files, 0, []⟩ (by
      intro it hit hurl
      exact hcovF it hit hurl)
  have hcovE := extract_no_fail_covered parse htmlFiles items ⟨txt0, 0, []⟩ hne
  have hskipE := extract_all_present_skips parse htmlFiles items
    ⟨(extractRun parse htmlFiles items txt0).txtFiles, 0, []⟩ (by
      intro it hit hhtml
      exact hcovE it hit hhtml)
  refine ⟨by simp [download_html_pages, hdoc], by simp [convert_html_to_txt, hdoc],
    hskipF.2, hskipF.1, hskipE.2, hskipE.1⟩

/-- C3 witness: after a failure-free first run of fetch and of extract on a
concrete one-item manifest, the second run issues no network call and no
parse operation. -/
theorem second_run_is_noop_witness :
    manifestItems w3Doc = some [w3Item] ∧
    FetchOutcome.failed ∉ (fetchRun w3Net [w3Item] []).outcomes ∧
    ExtractOutcome.failed ∉ (extractRun w3Parse w3Html [w3Item] []).outcomes ∧
    (fetchRun w3Net [w3Item] (fetchRun w3Net [w3Item] []).files).calls = 0 ∧
    (extractRun w3Parse w3Html [w3Item]
      (extractRun w3Parse w3Html [w3Item] []).txtFiles).parses = 0 :=
  ⟨rfl, by decide, by decide,
    (second_run_is_noop w3Net w3Parse w3Doc [w3Item] rfl [] w3Html []
      (by decide) (by decide)).2.2.1,
    (second_run_is_noop w3Net w3Parse w3Doc [w3Item] rfl [] w3Html []
      (by decide) (by decide)).2.2.2.2.1⟩

/-- C3 counterexample: with a one-item manifest whose URL is unreachable,
the first fetch run records a failure and writes no artifact, so the second
run against the same manifest and directory issues one network call, not
zero — the unconditional claim fails when the first run had failures. -/
theorem second_fetch_run_calls_again :
    FetchOutcome.failed ∈ (fetchRun (fun _ => none) [w3Item] []).outcomes ∧
    (fetchRun (fun _ => none) [w3Item]
      (fetchRun (fun _ => none) [w3Item] []).files).calls = 1 := by
  constructor
  · decide
  · rfl

/-! ### Per-item failure isolation (claim C4) -/

theorem lookupFile_append_ne {l : FileSys} {f k : String}
    (h : lookupFile l f = none) (hne : f ≠ k) (v : String) :
    lookupFile (l ++ [(k, v)]) f = none := by
  induction l with
  | nil =>
    have : ¬(k = f) := fun hh => hne hh.symm
    simp [lookupFile, this]
  | cons a rest ih =>
    obtain ⟨k0, w⟩ := a
    by_cases hk : k0 = f
    · simp [lookupFile, hk] at h
    · rw [List.cons_append]
      simp only [lookupFile, hk, if_false] at h ⊢
      exact ih h

theorem lookupFile_of_forall_ne {ps : FileSys} {f : String}
    (h : ∀ p ∈ ps, p.1 ≠ f) : lookupFile ps f = none := by
  induction ps with
  | nil => rfl
  | cons a rest ih =>
    obtain ⟨k, v⟩ := a
    have hk : k ≠ f := h (k, v) (List.mem_cons_self _ _)
    simp only [lookupFile, hk, if_false]
    exact ih fun p hp => h p (List.mem_cons_of_mem _ hp)

theorem fetch_success_run (net : String → Option String) (l : List JsonVal) :
    ∀ st : FetchState,
      (∀ it ∈ l, (urlOf it).isSome = true) →
      (∀ it ∈ l, (net (theUrl it)).isSome = true) →
      (∀ it ∈ l, lookupFile st.files (htmlName it) = none) →
      l.Pairwise (fun a b => htmlName a ≠ htmlName b) →
      (l.foldl (fetchStep net) st).files =
        st.files ++ l.map (fun it => (htmlName it, fetchedBody net it)) ∧
      (l.foldl (fetchStep net) st).outcomes =
        st.outcomes ++ l.map (fun _ => FetchOutcome.downloaded) ∧
      (l.foldl (fetchStep net) st).calls = st.calls + l.length := by
  induction l with
  | nil => intro st _ _ _ _; simp
  | cons item rest ih =>
    intro st h1 h2 h3 h4
    obtain ⟨u, hu⟩ := Option.isSome_iff_exists.mp (h1 item (List.mem_cons_self _ _))
    have hturl : theUrl item = u := by simp [theUrl, hu]
    obtain ⟨body, hbody⟩ := Option.isSome_iff_exists.mp
      (h2 item (List.mem_cons_self _ _))
    have hbody' : net u = some body := by rw [← hturl]; exact hbody
    have hex : lookupFile st.files (htmlName item) = none :=
      h3 item (List.mem_cons_self _ _)
    have hfb : fetchedBody net item = body := by
      simp [fetchedBody, hbody]
    have hstep : fetchStep net st item =
        ⟨st.files ++ [(htmlName item, body)], st.calls + 1,
          st.outcomes ++ [FetchOutcome.downloaded]⟩ := by
      simp [fetchStep, hu, hex, hbody']
    rw [List.foldl_cons, hstep]
    have hpair := List.pairwise_cons.mp h4
    have hrest := ih ⟨st.files ++ [(htmlName item, body)], st.calls + 1,
        st.outcomes ++ [FetchOutcome.downloaded]⟩
      (fun it hit => h1 it (List.mem_cons_of_mem _ hit))
      (fun it hit => h2 it (List.mem_cons_of_mem _ hit))
      (fun it hit => lookupFile_append_ne (h3 it (List.mem_cons_of_mem _ hit))
        (fun he => hpair.1 it hit he.symm) body)
      hpair.2
    refine ⟨?_, ?_, ?_⟩
    · rw [hrest.1]
      simp [hfb]
    · rw [hrest.2.1]
      simp
    · rw [hrest.2.2]
      simp
      omega

theorem extract_success_run (parse : String → Option String) (htmlFiles : FileSys)
    (l : List JsonVal) :
    ∀ st : ExtractState,
      (∀ it ∈ l, (lookupFile htmlFiles (htmlName it)).isSome = true) →
      (∀ it ∈ l, (parse (htmlContent htmlFiles it)).isSome = true) →
      (∀ it ∈ l, lookupFile st.txtFiles (txtName it) = none) →
      l.Pairwise (fun a b => txtName a ≠ txtName b) →
      (l.foldl (extractStep parse htmlFiles) st).txtFiles =
        st.txtFiles ++ l.map (fun it => (txtName it, extractedText parse htmlFiles it)) ∧
      (l.foldl (extractStep parse htmlFiles) st).outcomes =
        st.outcomes ++ l.map (fun _ => ExtractOutcome.converted) ∧
      (l.foldl (extractStep parse htmlFiles) st).parses = st.parses + l.length := by
  induction l with
  | nil => intro st _ _ _ _; simp
  | cons item rest ih =>
    intro st h1 h2 h3 h4
    obtain ⟨html, hh⟩ := Option.isSome_iff_exists.mp (h1 item (List.mem_cons_self _ _))
    have hcontent : htmlContent htmlFiles item = html := by
      simp [htmlContent, hh]
    obtain ⟨txt, hp⟩ := Option.isSome_iff_exists.mp (h2 item (List.mem_cons_self _ _))
    have hp' : parse html = some txt := by rw [← hcontent]; exact hp
    have hex : lookupFile st.txtFiles (txtName item) = none :=
      h3 item (List.mem_cons_self _ _)
    have het : extractedText parse htmlFiles item = txt := by
      simp [extractedText, hp]
    have hstep : extractStep parse htmlFiles st item =
        ⟨st.txtFiles ++ [(txtName item, txt)], st.parses + 1,
          st.outcomes ++ [ExtractOutcome.converted]⟩ := by
      simp [extractStep, hh, hex, hp']
    rw [List.foldl_cons, hstep]
    have hpair := List.pairwise_cons.mp h4
    have hrest := ih ⟨st.txtFiles ++ [(txtName item, txt)], st.parses + 1,
        st.outcomes ++ [ExtractOutcome.converted]⟩
      (fun it hit => h1 it (List.mem_cons_of_mem _ hit))
      (fun it hit => h2 it (List.mem_cons_of_mem _ hit))
      (fun it hit => lookupFile_append_ne (h3 it (List.mem_cons_of_mem _ hit))
        (fun he => hpair.1 it hit he.symm) txt)
      hpair.2
    refine ⟨?_, ?_, ?_⟩
    · rw [hrest.1]
      simp [het]
    · rw [hrest.2.1]
      simp
    · rw [hrest.2.2]
      simp
      omega

theorem fetch_run_isolated (net : String → Option String)
    (preF postF : List JsonVal) (badF : JsonVal)
    (hFurl : ∀ it ∈ preF ++ badF :: postF, (urlOf it).isSome = true)
    (hFnet : ∀ it ∈ preF ++ postF, (net (theUrl it)).isSome = true)
    (hFbad : net (theUrl badF) = none)
    (hFdist : (preF ++ badF :: postF).Pairwise (fun a b => htmlName a ≠ htmlName b)) :
    (fetchRun net (preF ++ badF :: postF) []).outcomes =
      preF.map (fun _ => FetchOutcome.downloaded) ++ FetchOutcome.failed ::
        postF.map (fun _ => FetchOutcome.downloaded) ∧
    (fetchRun net (preF ++ badF :: postF) []).files =
      preF.map (fun it => (htmlName it, fetchedBody net it)) ++
        postF.map (fun it => (htmlName it, fetchedBody net it)) ∧
    (fetchRun net (preF ++ badF :: postF) []).files.length =
      preF.length + postF.length := by
  obtain ⟨hP1, hP2, hP3⟩ := List.pairwise_append.mp hFdist
  have hpre := fetch_success_run net preF ⟨[], 0, []⟩
    (fun it hit => hFurl it (List.mem_append_left _ hit))
    (fun it hit => hFnet it (List.mem_append_left _ hit))
    (fun it _ => rfl) hP1
  have hfiles1 : (preF.foldl (fetchStep net) ⟨[], 0, []⟩).files =
      preF.map (fun it => (htmlName it, fetchedBody net it)) := by
    simpa using hpre.1
  have houtcomes1 : (preF.foldl (fetchStep net) ⟨[], 0, []⟩).outcomes =
      preF.map (fun _ => FetchOutcome.downloaded) := by
    simpa using hpre.2.1
  obtain ⟨u, hu⟩ := Option.isSome_iff_exists.mp
    (hFurl badF (List.mem_append_right _ (List.mem_cons_self _ _)))
  have hnetu : net u = none := by
    have ht : theUrl badF = u := by simp [theUrl, hu]
    rw [← ht]
    exact hFbad
  have hexbad : lookupFile (preF.foldl (fetchStep net) ⟨[], 0, []⟩).files
      (htmlName badF) = none := by
    rw [hfiles1]
    apply lookupFile_of_forall_ne
    intro p hp
    obtain ⟨a, ha, rfl⟩ := List.mem_map.mp hp
    exact hP3 a ha badF (List.mem_cons_self _ _)
  have hbadstep : fetchStep net (preF.foldl (fetchStep net) ⟨[], 0, []⟩) badF =
      ⟨(preF.foldl (fetchStep net) ⟨[], 0, []⟩).files,
        (preF.foldl (fetchStep net) ⟨[], 0, []⟩).calls + 1,
        (preF.foldl (fetchStep net) ⟨[], 0, []⟩).outcomes ++ [FetchOutcome.failed]⟩ := by
    simp [fetchStep, hu, hexbad, hnetu]
  have hpost := fetch_success_run net postF
    ⟨(preF.foldl (fetchStep net) ⟨[], 0, []⟩).files,
      (preF.foldl (fetchStep net) ⟨[], 0, []⟩).calls + 1,
      (preF.foldl (fetchStep net) ⟨[], 0, []⟩).outcomes ++ [FetchOutcome.failed]⟩
    (fun it hit => hFurl it (List.mem_append_right _ (List.mem_cons_of_mem _ hit)))
    (fun it hit => hFnet it (List.mem_append_right _ hit))
    (fun it hit => by
      show lookupFile (preF.foldl (fetchStep net) ⟨[], 0, []⟩).files (htmlName it) = none
      rw [hfiles1]
      apply lookupFile_of_forall_ne
      intro p hp
      obtain ⟨a, ha, rfl⟩ := List.mem_map.mp hp
      exact hP3 a ha it (List.mem_cons_of_mem _ hit))
    (List.pairwise_cons.mp hP2).2
  have hrun : fetchRun net (preF ++ badF :: postF) [] =
      postF.foldl (fetchStep net)
        ⟨(preF.foldl (fetchStep net) ⟨[], 0, []⟩).files,
          (preF.foldl (fetchStep net) ⟨[], 0, []⟩).calls + 1,
          (preF.foldl (fetchStep net) ⟨[], 0, []⟩).outcomes ++ [FetchOutcome.failed]⟩ := by
    rw [fetchRun, List.foldl_append, List.foldl_cons, hbadstep]
  refine ⟨?_, ?_, ?_⟩
  · rw [hrun, hpost.2.1]
    simp [houtcomes1]
  · rw [hrun, hpost.1]
    simp [hfiles1]
  · rw [hrun, hpost.1]
    simp [hfiles1]

theorem extract_run_isolated (parse : String → Option String) (htmlFiles : FileSys)
    (preE postE : List JsonVal) (badE : JsonVal)
    (hEhtml : ∀ it ∈ preE ++ badE :: postE,
      (lookupFile htmlFiles (htmlName it)).isSome = true)
    (hEparse : ∀ it ∈ preE ++ postE, (parse (htmlContent htmlFiles it)).isSome = true)
    (hEbad : parse (htmlContent htmlFiles badE) = none)
    (hEdist : (preE ++ badE :: postE).Pairwise (fun a b => txtName a ≠ txtName b)) :
    (extractRun parse htmlFiles (preE ++ badE :: postE) []).outcomes =
      preE.map (fun _ => ExtractOutcome.converted) ++ ExtractOutcome.failed ::
        postE.map (fun _ => ExtractOutcome.converted) ∧
    (extractRun parse htmlFiles (preE ++ badE :: postE) []).txtFiles =
      preE.map (fun it => (txtName it, extractedText parse htmlFiles it)) ++
        postE.map (fun it => (txtName it, extractedText parse htmlFiles it)) ∧
    (extractRun parse htmlFiles (preE ++ badE :: postE) []).txtFiles.length =
      preE.length + postE.length := by
  obtain ⟨hP1, hP2, hP3⟩ := List.pairwise_append.mp hEdist
  have hpre := extract_success_run parse htmlFiles preE ⟨[], 0, []⟩
    (fun it hit => hEhtml it (List.mem_append_left _ hit))
    (fun it hit => hEparse it (List.mem_append_left _ hit))
    (fun it _ => rfl) hP1
  have hfiles1 : (preE.foldl (extractStep parse htmlFiles) ⟨[], 0, []⟩).txtFiles =
      preE.map (fun it => (txtName it, extractedText parse htmlFiles it)) := by
    simpa using hpre.1
  have houtcomes1 : (preE.foldl (extractStep parse htmlFiles) ⟨[], 0, []⟩).outcomes =
      preE.map (fun _ => ExtractOutcome.converted) := by
    simpa using hpre.2.1
  obtain ⟨html, hh⟩ := Option.isSome_iff_exists.mp
    (hEhtml badE (List.mem_append_right _ (List.mem_cons_self _ _)))
  have hparsebad : parse html = none := by
    have ht : htmlContent htmlFiles badE = html := by simp [htmlContent, hh]
    rw [← ht]
    exact hEbad
  have hexbad : lookupFile
      (preE.foldl (extractStep parse htmlFiles) ⟨[], 0, []⟩).txtFiles
      (txtName badE) = none := by
    rw [hfiles1]
    apply lookupFile_of_forall_ne
    intro p hp
    obtain ⟨a, ha, rfl⟩ := List.mem_map.mp hp
    exact hP3 a ha badE (List.mem_cons_self _ _)
  have hbadstep : extractStep parse htmlFiles
      (preE.foldl (extractStep parse htmlFiles) ⟨[], 0, []⟩) badE =
      ⟨(preE.foldl (extractStep parse htmlFiles) ⟨[], 0, []⟩).txtFiles,
        (preE.foldl (extractStep parse htmlFiles) ⟨[], 0, []⟩).parses + 1,
        (preE.foldl (extractStep parse htmlFiles) ⟨[], 0, []⟩).outcomes ++
          [ExtractOutcome.failed]⟩ := by
    simp [extractStep, hh, hexbad, hparsebad]
  have hpost := extract_success_run parse htmlFiles postE
    ⟨(preE.foldl (extractStep parse htmlFiles) ⟨[], 0, []⟩).txtFiles,
      (preE.foldl (extractStep parse htmlFiles) ⟨[], 0, []⟩).parses + 1,
      (preE.foldl (extractStep parse htmlFiles) ⟨[], 0, []⟩).outcomes ++
        [ExtractOutcome.failed]⟩
    (fun it hit => hEhtml it (List.mem_append_right _ (List.mem_cons_of_mem _ hit)))
    (fun it hit => hEparse it (List.mem_append_right _ hit))
    (fun it hit => by
      show lookupFile (preE.foldl (extractStep parse htmlFiles) ⟨[], 0, []⟩).txtFiles
        (txtName it) = none
      rw [hfiles1]
      apply lookupFile_of_forall_ne
      intro p hp
      obtain ⟨a, ha, rfl⟩ := List.mem_map.mp hp
      exact hP3 a ha it (List.mem_cons_of_mem _ hit))
    (List.pairwise_cons.mp hP2).2
  have hrun : extractRun parse htmlFiles (preE ++ badE :: postE) [] =
      postE.foldl (extractStep parse htmlFiles)
        ⟨(preE.foldl (extractStep parse htmlFiles) ⟨[], 0, []⟩).txtFiles,
          (preE.foldl (extractStep parse htmlFiles) ⟨[], 0, []⟩).parses + 1,
          (preE.foldl (extractStep parse htmlFiles) ⟨[], 0, []⟩).outcomes ++
            [ExtractOutcome.failed]⟩ := by
    rw [extractRun, List.foldl_append, List.foldl_cons, hbadstep]
  refine ⟨?_, ?_, ?_⟩
  · rw [hrun, hpost.2.1]
    simp [houtcomes1]
  · rw [hrun, hpost.1]
    simp [hfiles1]
  · rw [hrun, hpost.1]
    simp [hfiles1]

/-- C4: per-item failure isolation. For a fetch batch split as pre / bad /
post where only the bad item's URL fails at the transport level, and for an
extract batch where only the bad item's html fails to parse (or write), the
stage records exactly one failure, at the bad item's position, processes
every other item, and produces exactly the pre.length + post.length = N-1
artifacts of the succeeding items: one item's failure never aborts the
batch. -/
theorem per_item_failure_isolated (net parse : String → Option String)
    (htmlFiles : FileSys)
    (preF postF : List JsonVal) (badF : JsonVal)
    (preE postE : List JsonVal) (badE : JsonVal)
    (hFurl : ∀ it ∈ preF ++ badF :: postF, (urlOf it).isSome = true)
    (hFnet : ∀ it ∈ preF ++ postF, (net (theUrl it)).isSome = true)
    (hFbad : net (theUrl badF) = none)
    (hFdist : (preF ++ badF :: postF).Pairwise (fun a b => htmlName a ≠ htmlName b))
    (hEhtml : ∀ it ∈ preE ++ badE :: postE,
      (lookupFile htmlFiles (htmlName it)).isSome = true)
    (hEparse : ∀ it ∈ preE ++ postE, (parse (htmlContent htmlFiles it)).isSome = true)
    (hEbad : parse (htmlContent htmlFiles badE) = none)
    (hEdist : (preE ++ badE :: postE).Pairwise (fun a b => txtName a ≠ txtName b)) :
    (fetchRun net (preF ++ badF :: postF) []).outcomes =
      preF.map (fun _ => FetchOutcome.downloaded) ++ FetchOutcome.failed ::
        postF.map (fun _ => FetchOutcome.downloaded) ∧
    (fetchRun net (preF ++ badF :: postF) []).files =
      preF.map (fun it => (htmlName it, fetchedBody net it)) ++
        postF.map (fun it => (htmlName it, fetchedBody net it)) ∧
    (fetchRun net (preF ++ badF :: postF) []).files.length =
      preF.length + postF.length ∧
    (extractRun parse htmlFiles (preE ++ badE :: postE) []).outcomes =
      preE.map (fun _ => ExtractOutcome.converted) ++ ExtractOutcome.failed ::
        postE.map (fun _ => ExtractOutcome.converted) ∧
    (extractRun parse htmlFiles (preE ++ badE :: postE) []).txtFiles =
      preE.map (fun it => (txtName it, extractedText parse htmlFiles it)) ++
        postE.map (fun it => (txtName it, extractedText parse htmlFiles it)) ∧
    (extractRun parse htmlFiles (preE ++ badE :: postE) []).txtFiles.length =
      preE.length + postE.length := by
  obtain ⟨f1, f2, f3⟩ := fetch_run_isolated net preF postF badF hFurl hFnet hFbad hFdist
  obtain ⟨e1, e2, e3⟩ := extract_run_isolated parse htmlFiles preE postE badE
    hEhtml hEparse hEbad hEdist
  exact ⟨f1, f2, f3, e1, e2, e3⟩

/-- C4 witness: at the concrete three-item batch, the middle item's
transport (resp. parse) failure is recorded at position 1 while the other
two items each produce their artifact. -/
theorem per_item_failure_isolated_witness :
    c4net (theUrl c4i2) = none ∧
    c4parse (htmlContent c4html c4i2) = none ∧
    (fetchRun c4net ([c4i1] ++ c4i2 :: [c4i3]) []).outcomes =
      [c4i1].map (fun _ => FetchOutcome.downloaded) ++ FetchOutcome.failed ::
        [c4i3].map (fun _ => FetchOutcome.downloaded) ∧
    (fetchRun c4net ([c4i1] ++ c4i2 :: [c4i3]) []).files.length = 1 + 1 ∧
    (extractRun c4parse c4html ([c4i1] ++ c4i2 :: [c4i3]) []).outcomes =
      [c4i1].map (fun _ => ExtractOutcome.converted) ++ ExtractOutcome.failed ::
        [c4i3].map (fun _ => ExtractOutcome.converted) ∧
    (extractRun c4parse c4html ([c4i1] ++ c4i2 :: [c4i3]) []).txtFiles.length = 1 + 1 := by
  have h := per_item_failure_isolated c4net c4parse c4html
    [c4i1] [c4i3] c4i2 [c4i1] [c4i3] c4i2
    (by decide) (by decide) (by decide) (by decide)
    (by decide) (by decide) (by decide) (by decide)
  exact ⟨by decide, by decide, h.1, h.2.2.1, h.2.2.2.1, h.2.2.2.2.2⟩
